import Mathlib

/-!
# DopaReels — verification of the feed-ranking and conversation-composer logic

Shallow embedding of the two pieces of original client logic in this
repository:

* the feed ranking of `fetchShorts` (HomeScreen): engagement score,
  following / recency / trending boosts, and the stable descending sort;
* the conversation composer of the message screen: the cold-start
  `fetchChats` build, the live `subscribeToMessages` handler, the
  `setupMessageSeenChannel` handler, and the `markMessageAsSeen` /
  typing-indicator logic of the chat component.

Timestamps are modelled as natural numbers (epoch milliseconds, exactly the
values the source compares after `new Date(x).getTime()`), JS numbers as
exact rationals, JS `Map` as an insertion-ordered association list, and the
stable `Array.prototype.sort` with a numeric comparator as a stable
insertion sort.
-/

namespace DopaReels

/-! ## Feed ranking (`fetchShorts`) -/

/-- A video post row as consumed by the ranking code: the owner id, the three
denormalized counts (each `x[0]?.count || 0` in the source), and the creation
timestamp in epoch milliseconds. -/
structure Short where
  id : String
  user_id : String
  views : Nat
  likes : Nat
  comments : Nat
  created_at : Nat
deriving DecidableEq

/-- `views > 0 ? (likes + comments) / views : 0`. -/
def engagementRate (views likes comments : Nat) : ℚ :=
  if views > 0 then ((likes : ℚ) + (comments : ℚ)) / (views : ℚ) else 0

/-- `views*0.3 + likes*0.3 + comments*0.2 + engagementRate*100*0.2`. -/
def engagementScore (views likes comments : Nat) : ℚ :=
  (views : ℚ) * 0.3 + (likes : ℚ) * 0.3 + (comments : ℚ) * 0.2 +
    engagementRate views likes comments * 100 * 0.2

/-- `followingIds.includes(short.user_id) ? 1.5 : 1.0`. -/
def followingBoost (followingIds : List String) (s : Short) : ℚ :=
  if followingIds.contains s.user_id then 1.5 else 1.0

/-- `videoAge = Date.now() - created`; boost 2.0 under 1 h, 1.5 under 24 h,
1.2 under 7 d, else 1.0. -/
def recencyBoost (now : Nat) (s : Short) : ℚ :=
  let videoAge : ℤ := (now : ℤ) - (s.created_at : ℤ)
  if videoAge < 3600000 then 2.0
  else if videoAge < 86400000 then 1.5
  else if videoAge < 604800000 then 1.2
  else 1.0

/-- boost 1.5 over 1000 views, 1.3 over 500, 1.2 over 100, else 1.0. -/
def trendingBoost (s : Short) : ℚ :=
  if s.views > 1000 then 1.5
  else if s.views > 500 then 1.3
  else if s.views > 100 then 1.2
  else 1.0

/-- `score = engagementScore * followingBoost * recencyBoost * trendingBoost`. -/
def shortScore (followingIds : List String) (now : Nat) (s : Short) : ℚ :=
  engagementScore s.views s.likes s.comments * followingBoost followingIds s *
    recencyBoost now s * trendingBoost s

/-- One step of the stable descending-by-score insertion: the earlier element
stays in front of later elements with the same score, matching the stable
`sort((a, b) => b.score - a.score)`. -/
def insertByScoreDesc (x : Short × ℚ) : List (Short × ℚ) → List (Short × ℚ)
  | [] => [x]
  | y :: rest => if x.2 ≥ y.2 then x :: y :: rest else y :: insertByScoreDesc x rest

/-- Stable sort by score, descending. -/
def sortByScoreDesc : List (Short × ℚ) → List (Short × ℚ)
  | [] => []
  | x :: rest => insertByScoreDesc x (sortByScoreDesc rest)

/-- The scored-and-sorted feed: `.map(short => ({...short, score})).sort(...)`,
keeping each post paired with its score. -/
def rankShorts (followingIds : List String) (now : Nat) (shorts : List Short) :
    List (Short × ℚ) :=
  sortByScoreDesc (shorts.map (fun s => (s, shortScore followingIds now s)))


/-! ## Conversation composer — data model (message screen) -/

/-- The joined `users` row carried on each fetched message
(`id, username, fullname, photo_url`). -/
structure MUser where
  id : String
  username : String
  fullname : String
  photo_url : String
deriving DecidableEq

/-- A `messages` row as fetched by the cold-start build, with the joined
sender and receiver users. `created_at` is the parsed epoch-millisecond
timestamp. -/
structure ChatMessage where
  id : String
  sender_id : String
  receiver_id : String
  content : String
  created_at : Nat
  sender : MUser
  receiver : MUser
deriving DecidableEq

/-- The `last_message` fields of a summary; `is_seen` is an optional field in
the source type. -/
structure LastMessage where
  content : String
  created_at : Nat
  is_seen : Option Bool
deriving DecidableEq

/-- A per-peer conversation summary (the `Chat` type of the message screen). -/
structure Chat where
  id : String
  other_user : MUser
  last_message : Option LastMessage
  unread_count : Nat
  is_unread : Bool
deriving DecidableEq

/-- The chat key `${user.id}_${otherUser.id}`. -/
def chatKey (uid otherId : String) : String := uid ++ "_" ++ otherId

/-- The other participant of a message, from the viewer's standpoint. -/
def otherUserOf (uid : String) (m : ChatMessage) : MUser :=
  if m.sender_id = uid then m.receiver else m.sender

/-- `Map.get`: value of the first entry with the given key. -/
def lookupChat (k : String) : List (String × Chat) → Option Chat
  | [] => none
  | (k', c) :: rest => if k' = k then some c else lookupChat k rest

/-- `Map.set`: replace the value at an existing key in place, otherwise append
a new entry (JS `Map` preserves insertion order). -/
def setChat (k : String) (c : Chat) : List (String × Chat) → List (String × Chat)
  | [] => [(k, c)]
  | (k', c') :: rest => if k' = k then (k', c) :: rest else (k', c') :: setChat k c rest

/-- `chat.last_message?.created_at ? getTime(...) : 0`. -/
def chatTime (c : Chat) : Nat :=
  match c.last_message with
  | some lm => lm.created_at
  | none => 0

/-- One iteration of the `messages?.forEach` fold of `fetchChats`: create a
summary on the first occurrence of a peer key, and afterwards update it only
when the message is strictly newer than the recorded one. `seen` is the
locally held set of seen message ids (`seenMessagesRef`). -/
def processMessage (uid : String) (seen : List String)
    (acc : List (String × Chat)) (m : ChatMessage) : List (String × Chat) :=
  let otherUser := otherUserOf uid m
  let chatId := chatKey uid otherUser.id
  let isSeen := seen.contains m.id
  match lookupChat chatId acc with
  | none =>
      setChat chatId
        { id := chatId
          other_user := otherUser
          last_message := some { content := m.content, created_at := m.created_at,
                                 is_seen := some (if m.sender_id = uid then isSeen else true) }
          unread_count := if (m.sender_id != uid) && !isSeen then 1 else 0
          is_unread := (m.sender_id != uid) && !isSeen } acc
  | some existing =>
      if m.created_at > chatTime existing then
        setChat chatId
          { existing with
            last_message := some { content := m.content, created_at := m.created_at,
                                   is_seen := some (if m.sender_id = uid then isSeen else true) }
            unread_count := if (m.sender_id != uid) && !isSeen
                            then existing.unread_count + 1 else existing.unread_count
            is_unread := if (m.sender_id != uid) && !isSeen then true
                         else existing.is_unread } acc
      else acc

/-- Stable insertion by last-message timestamp, descending: the earlier
element stays in front of later elements with the same timestamp, matching
the stable `chatArray.sort((a, b) => bTime - aTime)`. -/
def insertByTimeDesc (c : Chat) : List Chat → List Chat
  | [] => [c]
  | d :: rest => if chatTime c ≥ chatTime d then c :: d :: rest else d :: insertByTimeDesc c rest

/-- Stable sort of summaries by last-message timestamp, descending. -/
def sortChatsDesc : List Chat → List Chat
  | [] => []
  | c :: rest => insertByTimeDesc c (sortChatsDesc rest)

/-- The grouping-and-sorting portion of `fetchChats`: fold the fetched
(newest-first) message list into the keyed map, take the values in insertion
order, and sort them by last-message timestamp descending. -/
def buildChats (uid : String) (seen : List String) (msgs : List ChatMessage) : List Chat :=
  sortChatsDesc ((msgs.foldl (processMessage uid seen) []).map Prod.snd)

/-- Everything `fetchChats` can do to the summary list: on any failure
(authentication error, missing user, query error, or an exception inside the
build) the `catch` only logs and `setChats` is never reached; only a fully
successful run replaces the list with the rebuilt one. -/
inductive FetchOutcome where
  | authError
  | noUser
  | queryError
  | buildException
  | ok (uid : String) (msgs : List ChatMessage)
deriving DecidableEq

/-- Whether the outcome is anything other than a fully successful fetch. -/
def FetchOutcome.failed : FetchOutcome → Bool
  | .ok _ _ => false
  | _ => true

/-- `fetchChats` as a transition on the summary-list state: `prev` is the list
held before the fetch began. -/
def fetchChats (seen : List String) (prev : List Chat) (o : FetchOutcome) : List Chat :=
  match o with
  | .ok uid msgs => buildChats uid seen msgs
  | _ => prev

/-- `payload.new` of a realtime `postgres_changes` event on `messages`. -/
structure LiveMessage where
  id : String
  sender_id : String
  receiver_id : String
  content : String
  created_at : Nat
deriving DecidableEq

/-- Remove the first summary whose id matches, returning it and the remaining
list in order (`findIndex` + `splice`). -/
def extractChat (chatId : String) : List Chat → Option (Chat × List Chat)
  | [] => none
  | c :: rest =>
      if c.id = chatId then some (c, rest)
      else (extractChat chatId rest).map (fun p => (p.1, c :: p.2))

/-- The `subscribeToMessages` realtime callback, as a transform of the summary
list: if no summary exists for the peer key a full rebuild is scheduled and
this update returns the list unchanged; otherwise the matching summary gets
the event's message as its last message, its unread counter is bumped when the
message is from the other user and not in the local seen-set, and it is moved
to the front (`splice` + `unshift`). -/
def handleMessageEvent (uid : String) (seen : List String) (m : LiveMessage)
    (chats : List Chat) : List Chat :=
  let otherUserId := if m.sender_id = uid then m.receiver_id else m.sender_id
  let chatId := chatKey uid otherUserId
  let isSeen := seen.contains m.id
  match extractChat chatId chats with
  | none => chats
  | some (c, rest) =>
      { c with
        last_message := some { content := m.content, created_at := m.created_at,
                               is_seen := some (if m.sender_id = uid then isSeen else true) }
        unread_count := if (m.sender_id != uid) && !isSeen
                        then c.unread_count + 1 else c.unread_count
        is_unread := if (m.sender_id != uid) && !isSeen then true else c.is_unread } :: rest

/-- The `setupMessageSeenChannel` broadcast callback of the message screen:
for a payload naming a user other than the viewer, mark the last message of
every summary whose peer is that user as seen; a payload naming the viewer is
ignored. -/
def handleSeenEvent (uid : String) (payloadUserId : String) (chats : List Chat) : List Chat :=
  if payloadUserId ≠ uid then
    chats.map (fun chat =>
      if chat.other_user.id = payloadUserId then
        { chat with
          last_message := chat.last_message.map (fun lm => { lm with is_seen := some true }) }
      else chat)
  else chats

/-- Each summary's peer occurs at most once in the list. -/
def distinctPeers (chats : List Chat) : Prop :=
  chats.Pairwise (fun a b => a.other_user.id ≠ b.other_user.id)

/-! ## `markMessageAsSeen` (chat component) -/

/-- The two recordings of the seen flag: the locally held set of seen message
ids (`seenMessagesRef`) and the externally persisted `is_seen` column, modelled
as an association from message id to its stored flag. -/
structure SeenSyncState where
  seenMessages : List String
  dbIsSeen : List (String × Bool)
deriving DecidableEq

/-- The database `update({ is_seen: true }).eq(id, messageId)` applied to the
persisted column. -/
def dbSetSeen (messageId : String) : List (String × Bool) → List (String × Bool)
  | [] => [(messageId, true)]
  | (i, b) :: rest =>
      if i = messageId then (i, true) :: rest else (i, b) :: dbSetSeen messageId rest

/-- The persisted `is_seen` value of a message (false when the row has none). -/
def dbSeenTrue (messageId : String) : List (String × Bool) → Bool
  | [] => false
  | (i, b) :: rest => if i = messageId then b else dbSeenTrue messageId rest

/-- Whether the `update({ is_seen: true })` call succeeded or returned an
error / threw. -/
inductive DbUpdateResult where
  | success
  | failure
deriving DecidableEq

/-- `markMessageAsSeen(messageId)`: with both user ids present, the id is
first added to the local seen set, then the database update is attempted; a
database error is only logged ("using local state only") and the local
addition is kept. With either id missing, nothing happens. -/
def markMessageAsSeen (currentUserId otherUserId : Option String) (messageId : String)
    (dbResult : DbUpdateResult) (st : SeenSyncState) : SeenSyncState :=
  match currentUserId, otherUserId with
  | some _, some _ =>
      let withLocal :=
        { st with seenMessages :=
            if st.seenMessages.contains messageId then st.seenMessages
            else messageId :: st.seenMessages }
      match dbResult with
      | .success => { withLocal with dbIsSeen := dbSetSeen messageId withLocal.dbIsSeen }
      | .failure => withLocal
  | _, _ => st

/-! ## Typing indicator (`useTypingIndicator`) -/

/-- The transient typing state: the boolean shown to the viewer, the pending
`setTimeout` expiry instant (absolute, in milliseconds) if a timer is armed,
and the current instant. -/
structure TypingState where
  isOtherUserTyping : Bool
  typingTimeout : Option Nat
  now : Nat
deriving DecidableEq

/-- What can happen on the typing channel: a broadcast `typing` signal from
some user arrives, or time passes (during which a due timer callback fires). -/
inductive TypingEvent where
  | signal (userId : String)
  | elapse (d : Nat)
deriving DecidableEq

/-- One step of the typing indicator: a signal from the peer sets the
indicator and re-arms the 3000 ms timer (`clearTimeout` + `setTimeout`);
signals from anyone else are ignored; when time passes beyond a pending
expiry, the timer callback resets the indicator. -/
def typingStep (otherUserId : String) (st : TypingState) : TypingEvent → TypingState
  | .signal u =>
      if u = otherUserId then
        { st with isOtherUserTyping := true, typingTimeout := some (st.now + 3000) }
      else st
  | .elapse d =>
      match st.typingTimeout with
      | some e =>
          if e ≤ st.now + d then
            { isOtherUserTyping := false, typingTimeout := none, now := st.now + d }
          else { st with now := st.now + d }
      | none => { st with now := st.now + d }

/-- Run the typing indicator from its initial state (`useState(false)`, no
timer, time zero) over a sequence of events. -/
def runTyping (otherUserId : String) (evs : List TypingEvent) : TypingState :=
  evs.foldl (typingStep otherUserId) ⟨false, none, 0⟩

/-- Observer fold over typing events: tracks the instant of the last typing
signal from the peer (if any) together with the running clock. -/
def obsStep (otherUserId : String) (p : Option Nat × Nat) : TypingEvent → Option Nat × Nat
  | .signal u => (if u = otherUserId then some p.2 else p.1, p.2)
  | .elapse d => (p.1, p.2 + d)

/-- The instant of the last typing signal from the peer in an event sequence,
if any. -/
def lastPeerSignalTime (otherUserId : String) (evs : List TypingEvent) : Option Nat :=
  (evs.foldl (obsStep otherUserId) (none, 0)).1

/-- Invariant relating the typing state to the instant of the last accepted
peer signal: with no signal yet the indicator is off and no timer is armed;
after a signal at instant `s` the indicator is on with the timer armed for
`s + 3000` while less than 3000 ms have passed since `s`, and off with the
timer disarmed once 3000 ms or more have passed. -/
def TypingInv (st : TypingState) : Option Nat → Prop
  | none => st.isOtherUserTyping = false ∧ st.typingTimeout = none
  | some s => s ≤ st.now ∧
      ((st.now < s + 3000 ∧ st.isOtherUserTyping = true ∧
          st.typingTimeout = some (s + 3000)) ∨
       (s + 3000 ≤ st.now ∧ st.isOtherUserTyping = false ∧ st.typingTimeout = none))

/-- Invariant of the cold-start build's keyed map: the keys are pairwise
distinct (a JS `Map` has unique keys) and every entry's key is the chat key
derived from its summary's peer. -/
def KeysInv (uid : String) (acc : List (String × Chat)) : Prop :=
  (acc.map Prod.fst).Nodup ∧ ∀ e ∈ acc, e.1 = chatKey uid e.2.other_user.id

/-! ## Concrete instances used by the example claims and witnesses -/

/-- The two posts of the spec's ranking example. -/
def c2Post1 : Short := ⟨"s1", "u1", 0, 5, 0, 864000000 - 1800000⟩

def c2Post2 : Short := ⟨"s2", "u2", 2000, 0, 0, 0⟩

/-- A followed-owner post with no engagement at all. -/
def c3Followed : Short := ⟨"pF", "uF", 0, 0, 0, 0⟩

/-- An unfollowed-owner post with no engagement at all. -/
def c3Unfollowed : Short := ⟨"pU", "uU", 0, 0, 0, 0⟩

def c3wP : Short := ⟨"w1", "wU", 10, 2, 1, 1000⟩

def c3wQ : Short := ⟨"w2", "wV", 10, 2, 1, 1000⟩


def userA : MUser := ⟨"A", "alice", "Alice", "a.png"⟩

def userB : MUser := ⟨"B", "bob", "Bob", "b.png"⟩

def userC : MUser := ⟨"C", "carl", "Carl", "c.png"⟩

def userP : MUser := ⟨"P", "pat", "Pat", "p.png"⟩

/-- The spec example's message list for viewer B: `(A→B, t1)`, `(B→A, t2)`,
`(A→B, t3)` with `t1 < t2 < t3`, all unseen. -/
def c1msg1 : ChatMessage := ⟨"m1", "A", "B", "hi", 1, userA, userB⟩

def c1msg2 : ChatMessage := ⟨"m2", "B", "A", "hello", 2, userB, userA⟩

def c1msg3 : ChatMessage := ⟨"m3", "A", "B", "there", 3, userA, userB⟩

/-- The single summary the cold-start build produces on the spec example. -/
def c1Summary : Chat := ⟨"B_A", userA, some ⟨"there", 3, some true⟩, 1, true⟩

def w9msg1 : ChatMessage := ⟨"n1", "P", "V", "one", 5, userP, ⟨"V", "val", "Val", "v.png"⟩⟩

def w9msg2 : ChatMessage := ⟨"n2", "P", "V", "two", 4, userP, ⟨"V", "val", "Val", "v.png"⟩⟩

/-- The summary the cold-start build produces from `[w9msg1, w9msg2]`. -/
def w9Chat : Chat := ⟨"V_P", userP, some ⟨"one", 5, some true⟩, 1, true⟩

def w5msg : LiveMessage := ⟨"m9", "A", "B", "yo", 9⟩

def c5Other : Chat := ⟨"B_C", userC, some ⟨"x", 7, some true⟩, 0, false⟩

def c5Target : Chat := ⟨"B_A", userA, some ⟨"there", 3, some true⟩, 1, true⟩

/-- A summary whose peer is the viewer B themselves (producible from
self-addressed messages), with an unseen last message. -/
def c6Self : Chat := ⟨"B_B", userB, some ⟨"note", 1, some false⟩, 0, false⟩

def c6wChat : Chat := ⟨"B_A", userA, some ⟨"hey", 2, some false⟩, 3, true⟩

def w10Chat : Chat := ⟨"B_A", userA, some ⟨"z", 1, some true⟩, 0, false⟩

def w10msg : LiveMessage := ⟨"mX", "A", "B", "w", 5⟩


/-! ## Theorems -/

/-! ### Feed ranking -/

lemma engagementRate_nonneg (v l c : Nat) : 0 ≤ engagementRate v l c := by
  unfold engagementRate
  split
  · positivity
  · norm_num

lemma engagementScore_pos (v l c : Nat) (h : 0 < v + l + c) :
    0 < engagementScore v l c := by
  have hr : 0 ≤ engagementRate v l c * 100 * 0.2 := by
    have := engagementRate_nonneg v l c
    positivity
  have hv : (0:ℚ) ≤ v := Nat.cast_nonneg v
  have hl : (0:ℚ) ≤ l := Nat.cast_nonneg l
  have hc : (0:ℚ) ≤ c := Nat.cast_nonneg c
  have hs : (0:ℚ) < v + l + c := by exact_mod_cast h
  unfold engagementScore
  nlinarith

lemma recencyBoost_pos (now : Nat) (s : Short) : 0 < recencyBoost now s := by
  unfold recencyBoost
  dsimp only
  split_ifs <;> norm_num

lemma trendingBoost_pos (s : Short) : 0 < trendingBoost s := by
  unfold trendingBoost
  split_ifs <;> norm_num

lemma followingBoost_of_contains (f : List String) (s : Short)
    (h : f.contains s.user_id = true) : followingBoost f s = 1.5 := by
  unfold followingBoost
  rw [h]
  norm_num

lemma followingBoost_of_not_contains (f : List String) (s : Short)
    (h : f.contains s.user_id = false) : followingBoost f s = 1.0 := by
  unfold followingBoost
  rw [h]
  norm_num

/-- C2: for a viewer following no one, with the first post 30 minutes old and
the second 10 days old, the post `{views:0, likes:5, comments:0}` scores
`1.5·1.0·2.0·1.0 = 3.0`, the post `{views:2000, likes:0, comments:0}` scores
`600·1.0·1.0·1.5 = 900`, and the sorted feed places the second post first. -/
theorem c2_ranking_example :
    shortScore [] 864000000 c2Post1 = 3 ∧
    shortScore [] 864000000 c2Post2 = 900 ∧
    rankShorts [] 864000000 [c2Post1, c2Post2] = [(c2Post2, 900), (c2Post1, 3)] := by
  refine ⟨?_, ?_, ?_⟩
  · norm_num [shortScore, engagementScore, engagementRate, followingBoost, recencyBoost,
      trendingBoost, c2Post1]
  · norm_num [shortScore, engagementScore, engagementRate, followingBoost, recencyBoost,
      trendingBoost, c2Post2]
  · norm_num [rankShorts, sortByScoreDesc, insertByScoreDesc, shortScore, engagementScore,
      engagementRate, followingBoost, recencyBoost, trendingBoost, c2Post1, c2Post2]

/-- C3 (amended): for two posts with identical views, likes, comments and
creation timestamp, differing only in that the first owner is followed and the
second is not, and with at least one engagement count positive, the followed
post scores strictly higher and the ranking sort places it strictly before the
unfollowed one (from either input order). -/
theorem c3_following_monotone (followingIds : List String) (now : Nat) (p q : Short)
    (hviews : p.views = q.views) (hlikes : p.likes = q.likes)
    (hcomments : p.comments = q.comments) (hcreated : p.created_at = q.created_at)
    (hp : followingIds.contains p.user_id = true)
    (hq : followingIds.contains q.user_id = false)
    (hpos : 0 < p.views + p.likes + p.comments) :
    shortScore followingIds now p > shortScore followingIds now q ∧
    (rankShorts followingIds now [p, q]).map Prod.fst = [p, q] ∧
    (rankShorts followingIds now [q, p]).map Prod.fst = [p, q] := by
  have hE : 0 < engagementScore p.views p.likes p.comments := engagementScore_pos _ _ _ hpos
  have hR : 0 < recencyBoost now p := recencyBoost_pos now p
  have hT : 0 < trendingBoost p := trendingBoost_pos p
  have hRq : recencyBoost now q = recencyBoost now p := by
    unfold recencyBoost; rw [hcreated]
  have hTq : trendingBoost q = trendingBoost p := by
    unfold trendingBoost; rw [hviews]
  have hscore : shortScore followingIds now p > shortScore followingIds now q := by
    unfold shortScore
    rw [followingBoost_of_contains _ _ hp, followingBoost_of_not_contains _ _ hq,
      hRq, hTq, ← hviews, ← hlikes, ← hcomments]
    nlinarith [mul_pos (mul_pos hE hR) hT]
  refine ⟨hscore, ?_, ?_⟩
  · unfold rankShorts
    simp only [List.map_cons, List.map_nil, sortByScoreDesc, insertByScoreDesc]
    rw [if_pos (le_of_lt hscore)]
    rfl
  · unfold rankShorts
    simp only [List.map_cons, List.map_nil, sortByScoreDesc, insertByScoreDesc]
    rw [if_neg (not_le.mpr hscore)]
    rfl

/-- C3 counterexample: two posts differing only in followedness but with all
counts zero tie at score 0, and the stable sort keeps the unfollowed post
strictly before the followed one when it came first — so the claim's
universally quantified "strictly before" is false as stated. -/
theorem c3_counterexample :
    (["uF"].contains c3Followed.user_id = true) ∧
    (["uF"].contains c3Unfollowed.user_id = false) ∧
    c3Followed.views = c3Unfollowed.views ∧ c3Followed.likes = c3Unfollowed.likes ∧
    c3Followed.comments = c3Unfollowed.comments ∧
    c3Followed.created_at = c3Unfollowed.created_at ∧ c3Followed ≠ c3Unfollowed ∧
    (rankShorts ["uF"] 0 [c3Unfollowed, c3Followed]).map Prod.fst
      = [c3Unfollowed, c3Followed] := by
  refine ⟨by decide, by decide, by decide, by decide, by decide, by decide, by decide, ?_⟩
  norm_num [rankShorts, sortByScoreDesc, insertByScoreDesc, shortScore, engagementScore,
    engagementRate, followingBoost, recencyBoost, trendingBoost, c3Followed, c3Unfollowed]

theorem c3_witness :
    shortScore ["wU"] 1000 c3wP > shortScore ["wU"] 1000 c3wQ ∧
    (rankShorts ["wU"] 1000 [c3wP, c3wQ]).map Prod.fst = [c3wP, c3wQ] ∧
    (rankShorts ["wU"] 1000 [c3wQ, c3wP]).map Prod.fst = [c3wP, c3wQ] :=
  c3_following_monotone ["wU"] 1000 c3wP c3wQ rfl rfl rfl rfl (by decide) (by decide)
    (by decide)

/-! ### Cold-start conversation build -/

/-- C1 counterexample: on the spec example's message list (fetched newest
first) the build does produce exactly one summary for peer A with last message
t3, but its unread counter is 1, not 2 — the strictly-newer update branch
never fires on a newest-first list, so t1 is never counted. -/
theorem c1_counterexample :
    buildChats "B" [] [c1msg3, c1msg2, c1msg1] = [c1Summary] ∧
    c1Summary.unread_count = 1 ∧ c1Summary.unread_count ≠ 2 := by
  exact ⟨by decide, rfl, by decide⟩

/-- C1 (amended): for viewer B, the cold-start build on
`[(A→B, t3), (B→A, t2), (A→B, t1)]` (newest first) produces exactly one
summary, whose peer is A, whose last message is the t3 message, and whose
unread counter equals 1. -/
theorem c1_build_example :
    buildChats "B" [] [c1msg3, c1msg2, c1msg1] = [c1Summary] ∧
    c1Summary.other_user = userA ∧
    c1Summary.last_message = some ⟨c1msg3.content, c1msg3.created_at, some true⟩ ∧
    c1Summary.unread_count = 1 := by
  refine ⟨by decide, rfl, rfl, rfl⟩

/-! ### Failure semantics of the fetch -/

/-- C8: on every failed fetch outcome (authentication error, missing user,
query error, or an exception inside the build) the summary list is left
exactly as it was before the fetch — never cleared or partially updated. -/
theorem c8_failure_keeps_state (seen : List String) (prev : List Chat)
    (o : FetchOutcome) (h : o.failed = true) : fetchChats seen prev o = prev := by
  cases o
  case ok uid msgs => simp [FetchOutcome.failed] at h
  all_goals rfl

theorem c8_witness : fetchChats [] [w10Chat] FetchOutcome.queryError = [w10Chat] :=
  c8_failure_keeps_state [] [w10Chat] FetchOutcome.queryError rfl


end DopaReels

namespace DopaReels

/-! ### markMessageAsSeen -/

lemma contains_after_add (l : List String) (a : String) :
    (if l.contains a then l else a :: l).contains a = true := by
  by_cases h : l.contains a
  · rw [if_pos h]
    exact h
  · rw [if_neg h]
    simp

lemma dbSeenTrue_dbSetSeen (messageId : String) (db : List (String × Bool)) :
    dbSeenTrue messageId (dbSetSeen messageId db) = true := by
  induction db with
  | nil => simp [dbSetSeen, dbSeenTrue]
  | cons e rest ih =>
      obtain ⟨i, b⟩ := e
      by_cases h : i = messageId
      · simp [dbSetSeen, dbSeenTrue, h]
      · simp [dbSetSeen, dbSeenTrue, h, ih]

/-- C4 counterexample: a completed `markMessageAsSeen` run in which the
database update failed adds the id to the local seen set but leaves the
persisted column false — the two recordings disagree. -/
theorem c4_counterexample :
    ((markMessageAsSeen (some "B") (some "A") "m1" DbUpdateResult.failure
        ⟨[], [("m1", false)]⟩).seenMessages.contains "m1" = true) ∧
    (dbSeenTrue "m1" (markMessageAsSeen (some "B") (some "A") "m1"
        DbUpdateResult.failure ⟨[], [("m1", false)]⟩).dbIsSeen = false) := by
  decide

/-- C4 (amended): after a completed `markMessageAsSeen(messageId)` in which
the database update succeeded, the two recordings of the seen flag agree —
`messageId` is in the local seen set and the persisted column is true; when
the database update fails, only the local set records the flag. -/
theorem c4_agree_on_success (u o messageId : String) (st : SeenSyncState) :
    ((markMessageAsSeen (some u) (some o) messageId DbUpdateResult.success
        st).seenMessages.contains messageId = true) ∧
    (dbSeenTrue messageId (markMessageAsSeen (some u) (some o) messageId
        DbUpdateResult.success st).dbIsSeen = true) ∧
    (((markMessageAsSeen (some u) (some o) messageId DbUpdateResult.success
        st).seenMessages.contains messageId = true) ↔
     (dbSeenTrue messageId (markMessageAsSeen (some u) (some o) messageId
        DbUpdateResult.success st).dbIsSeen = true)) := by
  have h1 : (markMessageAsSeen (some u) (some o) messageId DbUpdateResult.success
      st).seenMessages.contains messageId = true := by
    unfold markMessageAsSeen
    exact contains_after_add st.seenMessages messageId
  have h2 : dbSeenTrue messageId (markMessageAsSeen (some u) (some o) messageId
      DbUpdateResult.success st).dbIsSeen = true := by
    unfold markMessageAsSeen
    exact dbSeenTrue_dbSetSeen messageId _
  exact ⟨h1, h2, by rw [h1, h2]⟩

/-! ### Seen-event handler -/

/-- C6 counterexample: a seen broadcast naming the viewer B themselves, on a
list holding a self-conversation summary (peer B) with an unseen last
message, is ignored by the handler's own-id guard — the peer-B summary's seen
flag is not set to true, so the claim is false as stated for every broadcast
and every summary list. -/
theorem c6_counterexample :
    c6Self.other_user.id = "B" ∧
    handleSeenEvent "B" "B" [c6Self] = [c6Self] ∧
    (c6Self.last_message.map fun lm => lm.is_seen) = some (some false) := by
  decide

/-- C6 (amended): for every seen broadcast naming a peer P other than the
viewer, the handler keeps the list's length and order, leaves every summary
whose peer is not P completely unchanged, changes each summary whose peer is
P only by setting its last message's seen flag to true, and leaves every
summary's unread counter unchanged. -/
theorem c6_seen_event_frame (uid p : String) (chats : List Chat) (h : p ≠ uid) :
    (handleSeenEvent uid p chats).length = chats.length ∧
    (∀ (i : Nat) (c : Chat), chats[i]? = some c → c.other_user.id ≠ p →
      (handleSeenEvent uid p chats)[i]? = some c) ∧
    (∀ (i : Nat) (c : Chat), chats[i]? = some c → c.other_user.id = p →
      (handleSeenEvent uid p chats)[i]? = some
        { c with last_message :=
            c.last_message.map (fun lm => { lm with is_seen := some true }) }) ∧
    (∀ (i : Nat) (c : Chat), chats[i]? = some c →
      ((handleSeenEvent uid p chats)[i]?).map Chat.unread_count
        = some c.unread_count) := by
  unfold handleSeenEvent
  rw [if_pos h]
  refine ⟨List.length_map _ _, ?_, ?_, ?_⟩
  · intro i c hc hne
    rw [List.getElem?_map, hc]
    simp [hne]
  · intro i c hc heq
    rw [List.getElem?_map, hc]
    simp [heq]
  · intro i c hc
    rw [List.getElem?_map, hc]
    by_cases heq : c.other_user.id = p <;> simp [heq]

theorem c6_witness :
    (handleSeenEvent "B" "A" [c6wChat])[0]? =
      some { c6wChat with last_message :=
        c6wChat.last_message.map (fun lm => { lm with is_seen := some true }) } :=
  (c6_seen_event_frame "B" "A" [c6wChat] (by decide)).2.2.1 0 c6wChat rfl rfl

end DopaReels

namespace DopaReels

/-! ### Live message-event handler -/

lemma extractChat_append (k : String) (pre post : List Chat) (c : Chat)
    (hpre : ∀ c' ∈ pre, c'.id ≠ k) (hc : c.id = k) :
    extractChat k (pre ++ c :: post) = some (c, pre ++ post) := by
  induction pre with
  | nil => simp [extractChat, hc]
  | cons d rest ih =>
      have hd : d.id ≠ k := hpre d (List.mem_cons_self d rest)
      have ih' := ih (fun c' hc' => hpre c' (List.mem_cons_of_mem d hc'))
      simp [extractChat, hd, ih']

/-- C5: for every message event whose peer key already has a summary (`c`, the
first summary with the matching key; `pre` are the summaries in front of it),
the handler replaces that summary's last-message fields with the event's
message with no timestamp comparison, increments its unread counter exactly
when the message was received by the viewer (not self-sent) and its id is not
in the local seen-set, moves the summary to position 0 and keeps all other
summaries in their relative order. -/
theorem c5_message_event (uid : String) (seen : List String) (m : LiveMessage)
    (pre post : List Chat) (c : Chat)
    (hfilter : m.sender_id = uid ∨ m.receiver_id = uid)
    (hkey : c.id = chatKey uid (if m.sender_id = uid then m.receiver_id else m.sender_id))
    (hpre : ∀ c' ∈ pre,
      c'.id ≠ chatKey uid (if m.sender_id = uid then m.receiver_id else m.sender_id)) :
    handleMessageEvent uid seen m (pre ++ c :: post) =
      { c with
        last_message := some ⟨m.content, m.created_at,
          some (if m.sender_id = uid then seen.contains m.id else true)⟩
        unread_count := c.unread_count +
          (if m.receiver_id = uid ∧ m.sender_id ≠ uid ∧ ¬ (seen.contains m.id = true)
           then 1 else 0)
        is_unread := if m.receiver_id = uid ∧ m.sender_id ≠ uid ∧
            ¬ (seen.contains m.id = true) then true else c.is_unread }
      :: (pre ++ post) := by
  have hcond : (((m.sender_id != uid) && !(seen.contains m.id)) = true) ↔
      (m.receiver_id = uid ∧ m.sender_id ≠ uid ∧ ¬ (seen.contains m.id = true)) := by
    constructor
    · intro hb
      rw [Bool.and_eq_true, bne_iff_ne, Bool.not_eq_true'] at hb
      exact ⟨hfilter.resolve_left hb.1, hb.1, by rw [hb.2]; exact Bool.false_ne_true⟩
    · rintro ⟨_, hs, hn⟩
      rw [Bool.and_eq_true, bne_iff_ne, Bool.not_eq_true']
      exact ⟨hs, Bool.not_eq_true _ ▸ hn⟩
  unfold handleMessageEvent
  dsimp only
  rw [extractChat_append _ _ _ _ hpre hkey]
  dsimp only
  by_cases hP : m.receiver_id = uid ∧ m.sender_id ≠ uid ∧ ¬ (seen.contains m.id = true)
  · have hb : ((m.sender_id != uid) && !(seen.contains m.id)) = true := hcond.mpr hP
    have hmem : m.id ∉ seen := by
      intro hm
      exact hP.2.2 (by simpa using hm)
    rw [hb]
    simp [hP.1, hP.2.1, hmem]
  · have hb : ((m.sender_id != uid) && !(seen.contains m.id)) = false := by
      rcases Bool.eq_false_or_eq_true ((m.sender_id != uid) && !(seen.contains m.id)) with
        h | h
      · exact absurd (hcond.mp h) hP
      · exact h
    rw [if_neg hP, if_neg hP, hb]
    simp

theorem c5_witness :
    handleMessageEvent "B" [] w5msg ([c5Other] ++ c5Target :: []) =
      { c5Target with
        last_message := some ⟨w5msg.content, w5msg.created_at,
          some (if w5msg.sender_id = "B" then List.contains [] w5msg.id else true)⟩
        unread_count := c5Target.unread_count +
          (if w5msg.receiver_id = "B" ∧ w5msg.sender_id ≠ "B" ∧
              ¬ (List.contains [] w5msg.id = true) then 1 else 0)
        is_unread := if w5msg.receiver_id = "B" ∧ w5msg.sender_id ≠ "B" ∧
            ¬ (List.contains [] w5msg.id = true) then true else c5Target.is_unread }
      :: ([c5Other] ++ []) :=
  c5_message_event "B" [] w5msg [c5Other] [] c5Target (Or.inr rfl) (by decide)
    (by decide)

end DopaReels

namespace DopaReels

/-! ### Typing indicator -/

lemma typingStep_inv (otherId : String) (st : TypingState) (p : Option Nat × Nat)
    (e : TypingEvent) (h : TypingInv st p.1) (hn : st.now = p.2) :
    TypingInv (typingStep otherId st e) (obsStep otherId p e).1 ∧
    (typingStep otherId st e).now = (obsStep otherId p e).2 := by
  obtain ⟨ls, t⟩ := p
  obtain ⟨ty, tm, n⟩ := st
  simp only at hn h
  subst hn
  cases e with
  | signal u =>
      by_cases hu : u = otherId
      · refine ⟨?_, by simp [typingStep, obsStep, hu]⟩
        simp only [typingStep, obsStep, if_pos hu, TypingInv]
        exact ⟨le_refl n, Or.inl ⟨by omega, by trivial, by trivial⟩⟩
      · refine ⟨?_, by simp [typingStep, obsStep, hu]⟩
        simpa [typingStep, obsStep, hu] using h
  | elapse d =>
      cases ls with
      | none =>
          simp only [TypingInv] at h
          obtain ⟨hty, hto⟩ := h
          subst hto
          refine ⟨?_, by simp [typingStep, obsStep]⟩
          simp only [typingStep, obsStep, TypingInv]
          exact ⟨hty, by trivial⟩
      | some s =>
          simp only [TypingInv] at h
          obtain ⟨hs, hcase⟩ := h
          rcases hcase with ⟨hlt, hty, hto⟩ | ⟨hge, hty, hto⟩
          · subst hto
            by_cases hfire : s + 3000 ≤ n + d
            · refine ⟨?_, by simp [typingStep, obsStep, if_pos hfire]⟩
              simp only [typingStep, obsStep, if_pos hfire, TypingInv]
              exact ⟨by omega, Or.inr ⟨by omega, by trivial, by trivial⟩⟩
            · refine ⟨?_, by simp [typingStep, obsStep, if_neg hfire]⟩
              simp only [typingStep, obsStep, if_neg hfire, TypingInv]
              exact ⟨by omega, Or.inl ⟨by omega, hty, by trivial⟩⟩
          · subst hto
            refine ⟨?_, by simp [typingStep, obsStep]⟩
            simp only [typingStep, obsStep, TypingInv]
            exact ⟨by omega, Or.inr ⟨by omega, hty, by trivial⟩⟩

lemma typing_fold_inv (otherId : String) (evs : List TypingEvent) :
    ∀ (st : TypingState) (p : Option Nat × Nat), TypingInv st p.1 → st.now = p.2 →
      TypingInv (evs.foldl (typingStep otherId) st)
        (evs.foldl (obsStep otherId) p).1 ∧
      (evs.foldl (typingStep otherId) st).now = (evs.foldl (obsStep otherId) p).2 := by
  induction evs with
  | nil => exact fun st p h hn => ⟨h, hn⟩
  | cons e rest ih =>
      intro st p h hn
      have hstep := typingStep_inv otherId st p e h hn
      exact ih (typingStep otherId st e) (obsStep otherId p e) hstep.1 hstep.2

/-- C7: over any sequence of typing-channel events (signals from arbitrary
users, passage of time firing due timers), the indicator is on exactly when
some typing signal from the peer has arrived and less than 3000 ms have
passed since the last one: it turns on at each peer signal, every signal
re-arms the 3-second expiry, and it turns off exactly once 3 seconds elapse
with no further peer signal. -/
theorem c7_typing_indicator (otherId : String) (evs : List TypingEvent) :
    (runTyping otherId evs).isOtherUserTyping = true ↔
      ∃ s, lastPeerSignalTime otherId evs = some s ∧
        (runTyping otherId evs).now < s + 3000 := by
  have hmain := typing_fold_inv otherId evs ⟨false, none, 0⟩ (none, 0) ⟨rfl, rfl⟩ rfl
  obtain ⟨hinv, hnow⟩ := hmain
  unfold runTyping lastPeerSignalTime
  cases hls : (evs.foldl (obsStep otherId) (none, 0)).1 with
  | none =>
      rw [hls] at hinv
      simp only [TypingInv] at hinv
      constructor
      · intro hty
        rw [hinv.1] at hty
        cases hty
      · rintro ⟨s', hs', _⟩
        exact Option.noConfusion hs'
  | some s =>
      rw [hls] at hinv
      simp only [TypingInv] at hinv
      obtain ⟨hs, hcase⟩ := hinv
      rcases hcase with ⟨hlt, hty, _⟩ | ⟨hge, hty, _⟩
      · rw [hty]
        constructor
        · intro
          exact ⟨s, rfl, by omega⟩
        · intro
          rfl
      · rw [hty]
        constructor
        · intro hfalse
          cases hfalse
        · rintro ⟨s', hs', hlt'⟩
          have hss := Option.some.inj hs'
          exfalso
          omega

end DopaReels

namespace DopaReels

/-! ### Cold-start build: unread bound -/

lemma lookupChat_none_setChat (k : String) (c : Chat) (l : List (String × Chat))
    (h : lookupChat k l = none) : setChat k c l = l ++ [(k, c)] := by
  induction l with
  | nil => rfl
  | cons e rest ih =>
      obtain ⟨k', c'⟩ := e
      by_cases hk : k' = k
      · rw [lookupChat, if_pos hk] at h
        cases h
      · rw [lookupChat, if_neg hk] at h
        rw [setChat, if_neg hk, ih h]
        rfl

lemma lookupChat_some_mem (k : String) (c : Chat) (l : List (String × Chat))
    (h : lookupChat k l = some c) : (k, c) ∈ l := by
  induction l with
  | nil => cases h
  | cons e rest ih =>
      obtain ⟨k', c'⟩ := e
      by_cases hk : k' = k
      · rw [lookupChat, if_pos hk] at h
        injection h with hc
        subst hk hc
        exact List.mem_cons_self _ _
      · rw [lookupChat, if_neg hk] at h
        exact List.mem_cons_of_mem _ (ih h)

lemma insertByTimeDesc_perm (c : Chat) (l : List Chat) :
    (insertByTimeDesc c l).Perm (c :: l) := by
  induction l with
  | nil => exact List.Perm.refl _
  | cons d rest ih =>
      rw [insertByTimeDesc]
      by_cases h : chatTime c ≥ chatTime d
      · rw [if_pos h]
      · rw [if_neg h]
        exact (ih.cons d).trans (List.Perm.swap c d rest)

lemma sortChatsDesc_perm (l : List Chat) : (sortChatsDesc l).Perm l := by
  induction l with
  | nil => exact List.Perm.refl _
  | cons c rest ih =>
      rw [sortChatsDesc]
      exact (insertByTimeDesc_perm c (sortChatsDesc rest)).trans (ih.cons c)

lemma buildChats_fold_unread (uid : String) (seen : List String) :
    ∀ (msgs : List ChatMessage) (acc : List (String × Chat)),
      msgs.Pairwise (fun a b => b.created_at ≤ a.created_at) →
      (∀ e ∈ acc, ∃ lm, e.2.last_message = some lm ∧ e.2.unread_count ≤ 1 ∧
        ∀ m ∈ msgs, m.created_at ≤ lm.created_at) →
      ∀ e ∈ msgs.foldl (processMessage uid seen) acc, e.2.unread_count ≤ 1 := by
  intro msgs
  induction msgs with
  | nil =>
      intro acc _ hacc e he
      obtain ⟨lm, _, hu, _⟩ := hacc e he
      exact hu
  | cons m rest ih =>
      intro acc hpair hacc e he
      rw [List.pairwise_cons] at hpair
      obtain ⟨hhead, htail⟩ := hpair
      rw [List.foldl_cons] at he
      refine ih (processMessage uid seen acc m) htail ?_ e he
      intro e' he'
      unfold processMessage at he'
      dsimp only at he'
      cases hl : lookupChat (chatKey uid (otherUserOf uid m).id) acc with
      | none =>
          rw [hl] at he'
          dsimp only at he'
          rw [lookupChat_none_setChat _ _ _ hl] at he'
          rcases List.mem_append.mp he' with hin | hnew
          · obtain ⟨lm, hlm, hu, htime⟩ := hacc e' hin
            exact ⟨lm, hlm, hu, fun m' hm' => htime m' (List.mem_cons_of_mem m hm')⟩
          · rcases List.mem_singleton.mp hnew with rfl
            refine ⟨_, rfl, ?_, ?_⟩
            · dsimp only
              split
              · exact le_refl 1
              · exact Nat.zero_le 1
            · intro m' hm'
              exact hhead m' hm'
      | some existing =>
          rw [hl] at he'
          dsimp only at he'
          obtain ⟨lm, hlm, hu, htime⟩ :=
            hacc (chatKey uid (otherUserOf uid m).id, existing)
              (lookupChat_some_mem _ _ _ hl)
          have hct : chatTime existing = lm.created_at := by
            unfold chatTime
            rw [hlm]
          have hnotnew : ¬ m.created_at > chatTime existing := by
            rw [hct]
            exact not_lt.mpr (htime m (List.mem_cons_self m rest))
          rw [if_neg hnotnew] at he'
          obtain ⟨lm', hlm', hu', htime'⟩ := hacc e' he'
          exact ⟨lm', hlm', hu', fun m' hm' => htime' m' (List.mem_cons_of_mem m hm')⟩

/-- C9: on every message list ordered newest first (non-increasing creation
timestamps) and an empty local seen-set, every summary produced by the
cold-start build has an unread counter of at most 1: no later-processed
message is strictly newer than the one already recorded for its peer. -/
theorem c9_unread_at_most_one (uid : String) (msgs : List ChatMessage)
    (hsorted : msgs.Pairwise (fun a b => b.created_at ≤ a.created_at)) :
    ∀ c ∈ buildChats uid [] msgs, c.unread_count ≤ 1 := by
  intro c hc
  unfold buildChats at hc
  have hmem := (sortChatsDesc_perm _).mem_iff.mp hc
  obtain ⟨e, he, rfl⟩ := List.mem_map.mp hmem
  exact buildChats_fold_unread uid [] msgs [] hsorted (by intro e' he'; cases he') e he

theorem c9_witness : w9Chat.unread_count ≤ 1 :=
  c9_unread_at_most_one "V" [w9msg1, w9msg2] (by decide) w9Chat (by decide)

end DopaReels

namespace DopaReels

/-! ### One summary per peer -/

lemma lookupChat_none_not_mem (k : String) (l : List (String × Chat))
    (h : lookupChat k l = none) : k ∉ l.map Prod.fst := by
  induction l with
  | nil => simp
  | cons e rest ih =>
      obtain ⟨k', c'⟩ := e
      rw [lookupChat] at h
      by_cases hk : k' = k
      · rw [if_pos hk] at h
        cases h
      · rw [if_neg hk] at h
        rw [List.map_cons]
        intro hmem
        rcases List.mem_cons.mp hmem with heq | hmem'
        · exact hk heq.symm
        · exact ih h hmem'

lemma setChat_keys_some (k : String) (c c₀ : Chat) (l : List (String × Chat))
    (h : lookupChat k l = some c₀) : (setChat k c l).map Prod.fst = l.map Prod.fst := by
  induction l with
  | nil => cases h
  | cons e rest ih =>
      obtain ⟨k', c'⟩ := e
      rw [lookupChat] at h
      by_cases hk : k' = k
      · rw [setChat, if_pos hk]
        rfl
      · rw [if_neg hk] at h
        rw [setChat, if_neg hk, List.map_cons, List.map_cons, ih h]

lemma mem_setChat (e : String × Chat) (k : String) (c : Chat) (l : List (String × Chat))
    (h : e ∈ setChat k c l) : e = (k, c) ∨ e ∈ l := by
  induction l with
  | nil =>
      rcases List.mem_singleton.mp h with rfl
      exact Or.inl rfl
  | cons e' rest ih =>
      obtain ⟨k', c'⟩ := e'
      rw [setChat] at h
      by_cases hk : k' = k
      · rw [if_pos hk] at h
        rcases List.mem_cons.mp h with heq | hmem
        · subst hk
          exact Or.inl heq
        · exact Or.inr (List.mem_cons_of_mem _ hmem)
      · rw [if_neg hk] at h
        rcases List.mem_cons.mp h with heq | hmem
        · exact Or.inr (heq ▸ List.mem_cons_self _ _)
        · rcases ih hmem with hnew | hold
          · exact Or.inl hnew
          · exact Or.inr (List.mem_cons_of_mem _ hold)

lemma processMessage_keysInv (uid : String) (seen : List String) (m : ChatMessage)
    (acc : List (String × Chat)) (h : KeysInv uid acc) :
    KeysInv uid (processMessage uid seen acc m) := by
  unfold processMessage
  dsimp only
  cases hl : lookupChat (chatKey uid (otherUserOf uid m).id) acc with
  | none =>
      rw [lookupChat_none_setChat _ _ _ hl]
      constructor
      · rw [List.map_append, List.nodup_append]
        refine ⟨h.1, List.nodup_singleton _, ?_⟩
        intro a ha hb
        rcases List.mem_singleton.mp hb with rfl
        exact lookupChat_none_not_mem _ _ hl ha
      · intro e he
        rcases List.mem_append.mp he with h1 | h2
        · exact h.2 e h1
        · rcases List.mem_singleton.mp h2 with rfl
          rfl
  | some existing =>
      dsimp only
      by_cases hnew : m.created_at > chatTime existing
      · rw [if_pos hnew]
        constructor
        · rw [setChat_keys_some _ _ existing _ hl]
          exact h.1
        · intro e he
          rcases mem_setChat _ _ _ _ he with rfl | hmem
          · have hx := h.2 (chatKey uid (otherUserOf uid m).id, existing)
              (lookupChat_some_mem _ _ _ hl)
            exact hx
          · exact h.2 e hmem
      · rw [if_neg hnew]
        exact h

lemma buildChats_fold_keysInv (uid : String) (seen : List String) :
    ∀ (msgs : List ChatMessage) (acc : List (String × Chat)), KeysInv uid acc →
      KeysInv uid (msgs.foldl (processMessage uid seen) acc) := by
  intro msgs
  induction msgs with
  | nil => exact fun acc h => h
  | cons m rest ih =>
      intro acc h
      rw [List.foldl_cons]
      exact ih _ (processMessage_keysInv uid seen m acc h)

lemma keysInv_distinctPeers (uid : String) (acc : List (String × Chat))
    (h : KeysInv uid acc) : distinctPeers (acc.map Prod.snd) := by
  induction acc with
  | nil => exact List.Pairwise.nil
  | cons e rest ih =>
      obtain ⟨k, c⟩ := e
      obtain ⟨hnodup, hkeys⟩ := h
      rw [List.map_cons, List.nodup_cons] at hnodup
      have htail : KeysInv uid rest :=
        ⟨hnodup.2, fun e' he' => hkeys e' (List.mem_cons_of_mem _ he')⟩
      rw [List.map_cons, distinctPeers, List.pairwise_cons]
      refine ⟨?_, ih htail⟩
      intro c' hc'
      obtain ⟨⟨k', c''⟩, hmem, rfl⟩ := List.mem_map.mp hc'
      intro heq
      have hk : k = chatKey uid c.other_user.id := hkeys (k, c) (List.mem_cons_self _ _)
      have hk' : k' = chatKey uid c''.other_user.id :=
        hkeys (k', c'') (List.mem_cons_of_mem _ hmem)
      have hkk : k = k' := by rw [hk, hk', heq]
      refine hnodup.1 ?_
      rw [hkk]
      exact List.mem_map.mpr ⟨(k', c''), hmem, rfl⟩

lemma extractChat_perm (k : String) (chats : List Chat) (c : Chat) (rest : List Chat)
    (h : extractChat k chats = some (c, rest)) : chats.Perm (c :: rest) := by
  induction chats generalizing c rest with
  | nil => cases h
  | cons d ds ih =>
      rw [extractChat] at h
      by_cases hd : d.id = k
      · rw [if_pos hd] at h
        injection h with h'
        injection h' with h1 h2
        subst h1
        subst h2
        exact List.Perm.refl _
      · rw [if_neg hd] at h
        cases he : extractChat k ds with
        | none =>
            rw [he] at h
            cases h
        | some p =>
            obtain ⟨c₀, rest₀⟩ := p
            rw [he] at h
            simp only [Option.map_some'] at h
            injection h with h'
            injection h' with h1 h2
            subst h1
            subst h2
            exact ((ih c₀ rest₀ he).cons d).trans (List.Perm.swap c₀ d rest₀)

lemma seen_update_other_user (p : String) (c : Chat) :
    ((fun chat => if chat.other_user.id = p then
        { chat with last_message :=
            chat.last_message.map (fun lm => { lm with is_seen := some true }) }
      else chat) c).other_user = c.other_user := by
  by_cases h : c.other_user.id = p <;> simp [h]

/-- C10: every operation of the conversation composer keeps at most one
summary per peer — the cold-start build keys summaries by the peer-derived
chat id (one map entry per key), and both live handlers preserve the
distinct-peers property of a list (the message handler updates and fronts one
existing summary or leaves the list unchanged pending a rebuild; the seen
handler maps summaries without touching their peers). -/
theorem c10_one_summary_per_peer :
    (∀ uid seen msgs, distinctPeers (buildChats uid seen msgs)) ∧
    (∀ uid seen m chats, distinctPeers chats →
      distinctPeers (handleMessageEvent uid seen m chats)) ∧
    (∀ uid p chats, distinctPeers chats → distinctPeers (handleSeenEvent uid p chats)) := by
  refine ⟨?_, ?_, ?_⟩
  · intro uid seen msgs
    unfold buildChats
    have hinv := buildChats_fold_keysInv uid seen msgs []
      ⟨List.nodup_nil, fun e he => absurd he (List.not_mem_nil e)⟩
    have hvals := keysInv_distinctPeers uid _ hinv
    exact ((sortChatsDesc_perm _).pairwise_iff (fun hxy => hxy.symm)).mpr hvals
  · intro uid seen m chats hchats
    unfold handleMessageEvent
    dsimp only
    cases hx : extractChat
        (chatKey uid (if m.sender_id = uid then m.receiver_id else m.sender_id)) chats with
    | none => exact hchats
    | some p =>
        obtain ⟨c, rest⟩ := p
        dsimp only
        have hperm := extractChat_perm _ _ _ _ hx
        have hcr : distinctPeers (c :: rest) :=
          (hperm.pairwise_iff (fun hxy => hxy.symm)).mp hchats
        rw [distinctPeers, List.pairwise_cons] at hcr
        rw [distinctPeers, List.pairwise_cons]
        exact ⟨fun c' hc' => hcr.1 c' hc', hcr.2⟩
  · intro uid p chats hchats
    unfold handleSeenEvent
    by_cases hp : p ≠ uid
    · rw [if_pos hp]
      rw [distinctPeers, List.pairwise_map]
      refine hchats.imp ?_
      intro a b hab
      rw [seen_update_other_user, seen_update_other_user]
      exact hab
    · rw [if_neg hp]
      exact hchats

theorem c10_witness : distinctPeers (handleMessageEvent "B" [] w10msg [w10Chat]) :=
  c10_one_summary_per_peer.2.1 "B" [] w10msg [w10Chat]
    (by unfold distinctPeers; exact List.pairwise_singleton _ _)

end DopaReels
